import Mathlib

/-!
# Verification of the medical-report relay's request handler

The repository holds four revisions of one Express request handler for
`POST /analyze-report`.  The claims cite three of them:

* `part_000` lines 1-152 (here suffix `A`): key precheck, trimmed text
  input with an empty-text check, an OCR empty-result check, a
  case-sensitive fence strip `/```json|```/g`, an empty-string-to-`{}`
  default in the parse step, and a `finally` block releasing the staged
  upload.
* `server.js` lines 1-140 (here suffix `R1`): no key precheck, verbatim
  text input, no empty checks, no upload cleanup.
* `server.js` lines 141-328 (here suffix `R2`): no key precheck, verbatim
  text input, a `"{}"` default for the model text, case-insensitive fence
  strip plus a `/^Here.*?:/i` strip, a brace-substring fallback parse, and
  a success-only upload cleanup.

Strings are modelled as `List Char` wrapped into `String` at the
boundaries.  `JSON.parse` / `JSON.stringify` are modelled by an executable
recursive-descent parser and serializer over a `Json` value type; numbers
are modelled as integers printed in decimal (JavaScript float formatting
and the fraction/exponent number forms are outside the model), and object
fields are kept as an ordered key-value list.
-/

/-- The backtick character (code 96), written numerically. -/
def btick : Char := Char.ofNat 96

/-- JSON insignificant whitespace as accepted by `JSON.parse`:
space, tab, line feed, carriage return. -/
def isJsonWs (c : Char) : Bool :=
  c = ' ' || c = '\t' || c = '\n' || c = '\r'

/-- Whitespace removed by JavaScript `String.prototype.trim`
(modelled on the ASCII whitespace characters). -/
def isTrimWs (c : Char) : Bool :=
  c = ' ' || c = '\t' || c = '\n' || c = '\r' ||
  c = Char.ofNat 11 || c = Char.ofNat 12

/-- Drop JSON whitespace from the front of the input. -/
def skipWs (l : List Char) : List Char := l.dropWhile isJsonWs

/-- Model of JavaScript `String.prototype.trim` on character lists. -/
def trimChars (l : List Char) : List Char :=
  ((l.dropWhile isTrimWs).reverse.dropWhile isTrimWs).reverse

/-- Model of JavaScript `String.prototype.trim`. -/
def trimStr (s : String) : String := ⟨trimChars s.data⟩

/-- JSON values as produced by the modelled `JSON.parse`: `null`, booleans,
integer numbers, strings, arrays, and objects as ordered field lists. -/
inductive Json where
  | null
  | bool (b : Bool)
  | num (n : Int)
  | str (s : String)
  | arr (elems : List Json)
  | obj (fields : List (String × Json))

/-! ## Serializer: a model of `JSON.stringify` (no indentation) -/

/-- The decimal digit character for `d < 10`. -/
def jdigitChar (d : Nat) : Char := Char.ofNat (48 + d)

/-- Hexadecimal digit character (lowercase), for `d < 16`. -/
def hexChar (d : Nat) : Char :=
  if d < 10 then Char.ofNat (48 + d) else Char.ofNat (87 + d)

/-- Decimal digit characters of `n`, most significant first, with enough
fuel; `natCharsAux fuel n` is correct whenever `n < 10 ^ fuel`. -/
def natCharsAux : Nat → Nat → List Char
  | 0, _ => []
  | fuel + 1, n =>
    if n = 0 then [] else natCharsAux fuel (n / 10) ++ [jdigitChar (n % 10)]

/-- Decimal rendering of a natural number, as `String(n)` would print it. -/
def serNat (n : Nat) : List Char := if n = 0 then "0".data else natCharsAux n n

/-- Decimal rendering of an integer. -/
def serInt (i : Int) : List Char :=
  if i < 0 then '-' :: serNat i.natAbs else serNat i.toNat

/-- How `JSON.stringify` escapes one character inside a string literal:
quote and backslash get a backslash escape, the named control characters
get their short escapes, other control characters get a `\u00XX` escape,
and everything else is emitted verbatim. -/
def escChar (c : Char) : List Char :=
  if c = '"' then ['\\', '"']
  else if c = '\\' then ['\\', '\\']
  else if c = Char.ofNat 8 then ['\\', 'b']
  else if c = '\t' then ['\\', 't']
  else if c = '\n' then ['\\', 'n']
  else if c = Char.ofNat 12 then ['\\', 'f']
  else if c = '\r' then ['\\', 'r']
  else if c.toNat < 32 then
    ['\\', 'u', '0', '0', hexChar (c.toNat / 16), hexChar (c.toNat % 16)]
  else [c]

/-- Escape every character of a string body. -/
def escList : List Char → List Char
  | [] => []
  | c :: cs => escChar c ++ escList cs

/-- Serialized JSON string literal: quote, escaped body, quote. -/
def serStr (s : String) : List Char := '"' :: escList s.data ++ ['"']

mutual

/-- Model of `JSON.stringify` on a `Json` value (integer numbers printed
in decimal; fields and elements separated by commas, no whitespace). -/
def serValue : Json → List Char
  | .null => "null".data
  | .bool true => "true".data
  | .bool false => "false".data
  | .num i => serInt i
  | .str s => serStr s
  | .arr l => '[' :: serElemsA l ++ [']']
  | .obj f => '{' :: serFieldsA f ++ ['}']

/-- Array elements joined by commas. -/
def serElemsA : List Json → List Char
  | [] => []
  | j :: es => serValue j ++ serElemsTail es

/-- Remaining array elements, each preceded by a comma. -/
def serElemsTail : List Json → List Char
  | [] => []
  | j :: es => ',' :: serValue j ++ serElemsTail es

/-- Object fields `"key":value` joined by commas. -/
def serFieldsA : List (String × Json) → List Char
  | [] => []
  | kv :: fs => serStr kv.1 ++ ':' :: serValue kv.2 ++ serFieldsTail fs

/-- Remaining object fields, each preceded by a comma. -/
def serFieldsTail : List (String × Json) → List Char
  | [] => []
  | kv :: fs => ',' :: serStr kv.1 ++ ':' :: serValue kv.2 ++ serFieldsTail fs

end

/-- Serialize a `Json` value to a `String`. -/
def serString (j : Json) : String := ⟨serValue j⟩

/-! ## Parser: a model of `JSON.parse`

Recursive descent with a fuel counter (one unit per nested value, so
`length + 1` units always suffice).  The grammar follows `JSON.parse`:
the four whitespace characters between tokens, `null` / `true` / `false`,
string literals with the standard escapes, integer numerals with the
no-leading-zero rule (fraction and exponent forms are outside the model),
arrays, and objects.  Duplicate object keys are kept in order. -/

/-- Decimal digit test. -/
def isDigitC (c : Char) : Bool := 48 ≤ c.toNat && c.toNat ≤ 57

/-- Value of a decimal digit character. -/
def digitVal (c : Char) : Nat := c.toNat - 48

/-- Value of a hexadecimal digit character, if it is one. -/
def hexVal (c : Char) : Option Nat :=
  if 48 ≤ c.toNat ∧ c.toNat ≤ 57 then some (c.toNat - 48)
  else if 97 ≤ c.toNat ∧ c.toNat ≤ 102 then some (c.toNat - 87)
  else if 65 ≤ c.toNat ∧ c.toNat ≤ 70 then some (c.toNat - 55)
  else none

/-- Numeric value of a run of decimal digit characters, most significant
first. -/
def digitsToNat (ds : List Char) : Nat :=
  ds.foldl (fun a c => 10 * a + digitVal c) 0

/-- The JSON number grammar forbids superfluous leading zeros. -/
def noLeadingZero : List Char → Bool
  | '0' :: _ :: _ => false
  | _ => true

/-- Parse an integer numeral token (optional minus sign, digit run). -/
def parseNumTok : List Char → Option (Json × List Char)
  | '-' :: l =>
    let ds := l.takeWhile isDigitC
    if ds = [] || !noLeadingZero ds then none
    else some (.num (-(digitsToNat ds : Int)), l.dropWhile isDigitC)
  | l =>
    let ds := l.takeWhile isDigitC
    if ds = [] || !noLeadingZero ds then none
    else some (.num (digitsToNat ds : Int), l.dropWhile isDigitC)

/-- Keyword continuation: consume the given literal characters or fail, as
`JSON.parse` does after the first letter of `null` / `true` / `false`. -/
def expectChars : List Char → List Char → Option (List Char)
  | [], l => some l
  | p :: ps, c :: l => if c = p then expectChars ps l else none
  | _ :: _, [] => none

mutual

/-- Parse the body of a string literal (after the opening quote), decoding
escapes, up to and including the closing quote.  Unescaped control
characters are rejected, as `JSON.parse` rejects them. -/
def parseStrChars : List Char → Option (List Char × List Char)
  | [] => none
  | c :: rest =>
    if c = '"' then some ([], rest)
    else if c = '\\' then parseStrEsc rest
    else if c.toNat < 32 then none
    else (parseStrChars rest).map (fun p => (c :: p.1, p.2))

/-- Decode one escape sequence (the character after the backslash) and
continue with the string body. -/
def parseStrEsc : List Char → Option (List Char × List Char)
  | [] => none
  | e :: r =>
    if e = '"' then (parseStrChars r).map (fun p => ('"' :: p.1, p.2))
    else if e = '\\' then (parseStrChars r).map (fun p => ('\\' :: p.1, p.2))
    else if e = '/' then (parseStrChars r).map (fun p => ('/' :: p.1, p.2))
    else if e = 'b' then
      (parseStrChars r).map (fun p => (Char.ofNat 8 :: p.1, p.2))
    else if e = 'f' then
      (parseStrChars r).map (fun p => (Char.ofNat 12 :: p.1, p.2))
    else if e = 'n' then (parseStrChars r).map (fun p => ('\n' :: p.1, p.2))
    else if e = 'r' then (parseStrChars r).map (fun p => ('\r' :: p.1, p.2))
    else if e = 't' then (parseStrChars r).map (fun p => ('\t' :: p.1, p.2))
    else if e = 'u' then
      match r with
      | h1 :: h2 :: h3 :: h4 :: r2 =>
        match hexVal h1, hexVal h2, hexVal h3, hexVal h4 with
        | some a, some b, some c, some d =>
          (parseStrChars r2).map
            (fun p => (Char.ofNat (4096 * a + 256 * b + 16 * c + d) :: p.1, p.2))
        | _, _, _, _ => none
      | _ => none
    else none

end

mutual

/-- Parse one JSON value from the input (skipping leading whitespace),
returning it with the unconsumed remainder. -/
def parseVal : Nat → List Char → Option (Json × List Char)
  | 0, _ => none
  | fuel + 1, l =>
    match skipWs l with
    | [] => none
    | c :: r =>
      if c = 'n' then (expectChars ['u', 'l', 'l'] r).map (fun r2 => (.null, r2))
      else if c = 't' then
        (expectChars ['r', 'u', 'e'] r).map (fun r2 => (.bool true, r2))
      else if c = 'f' then
        (expectChars ['a', 'l', 's', 'e'] r).map (fun r2 => (.bool false, r2))
      else if c = '"' then (parseStrChars r).map (fun p => (.str ⟨p.1⟩, p.2))
      else if c = '[' then
        match skipWs r with
        | [] => none
        | c2 :: r2 =>
          if c2 = ']' then some (.arr [], r2)
          else (parseElems fuel (c2 :: r2)).map (fun p => (.arr p.1, p.2))
      else if c = '{' then
        match skipWs r with
        | [] => none
        | c2 :: r2 =>
          if c2 = '}' then some (.obj [], r2)
          else (parseFields fuel (c2 :: r2)).map (fun p => (.obj p.1, p.2))
      else parseNumTok (c :: r)

/-- Parse the elements of a non-empty array, consuming the closing `]`. -/
def parseElems : Nat → List Char → Option (List Json × List Char)
  | 0, _ => none
  | fuel + 1, l =>
    match parseVal fuel l with
    | none => none
    | some (j, r) =>
      match skipWs r with
      | [] => none
      | c :: r2 =>
        if c = ',' then
          match parseElems fuel r2 with
          | none => none
          | some (es, r3) => some (j :: es, r3)
        else if c = ']' then some ([j], r2)
        else none

/-- Parse the fields of a non-empty object, consuming the closing `}`. -/
def parseFields : Nat → List Char → Option (List (String × Json) × List Char)
  | 0, _ => none
  | fuel + 1, l =>
    match skipWs l with
    | [] => none
    | c :: r =>
      if c = '"' then
        match parseStrChars r with
        | none => none
        | some (ks, r1) =>
          match skipWs r1 with
          | [] => none
          | c2 :: r2 =>
            if c2 = ':' then
              match parseVal fuel r2 with
              | none => none
              | some (v, r3) =>
                match skipWs r3 with
                | [] => none
                | c3 :: r4 =>
                  if c3 = ',' then
                    match parseFields fuel r4 with
                    | none => none
                    | some (fs, r5) => some ((⟨ks⟩, v) :: fs, r5)
                  else if c3 = '}' then some ([(⟨ks⟩, v)], r4)
                  else none
            else none
      else none

end

/-- Model of `JSON.parse` on a character list: parse one value and require
that only whitespace remains. -/
def jparseChars (l : List Char) : Option Json :=
  match parseVal (l.length + 1) l with
  | some (j, r) => if skipWs r = [] then some j else none
  | none => none

/-- Model of `JSON.parse`: `some` a value on success, `none` where
`JSON.parse` would throw. -/
def jparse (s : String) : Option Json := jparseChars s.data

mutual

/-- Fuel sufficient for `parseVal` to parse the serialization of a value. -/
def jfuel : Json → Nat
  | .arr l => 1 + lfuel l
  | .obj f => 1 + ffuel f
  | _ => 1

/-- Fuel sufficient for `parseElems` on serialized array elements. -/
def lfuel : List Json → Nat
  | [] => 0
  | j :: es => 1 + max (jfuel j) (lfuel es)

/-- Fuel sufficient for `parseFields` on serialized object fields. -/
def ffuel : List (String × Json) → Nat
  | [] => 0
  | f :: fs => 1 + max (jfuel f.2) (ffuel fs)

end

/-! ## The fence-strip and prefix-strip string rewrites

Each models a JavaScript `String.prototype.replace` call with an empty
replacement: scan left to right, remove the leftmost occurrence, continue
after it. -/

/-- `summaryText.replace(/```/g, "")` (`server.js` line 290): remove every
occurrence of three backticks, scanning left to right. -/
def stripTriple : List Char → List Char
  | a :: b :: c :: rest =>
    if a = btick ∧ b = btick ∧ c = btick then stripTriple rest
    else a :: stripTriple (b :: c :: rest)
  | l => l

/-- `summaryText.replace(/```json/gi, "")` (`server.js` line 289): remove
every occurrence of three backticks followed by `json` in any letter
case. -/
def stripJsonCI : List Char → List Char
  | x0 :: x1 :: x2 :: x3 :: x4 :: x5 :: x6 :: rest =>
    if x0 = btick ∧ x1 = btick ∧ x2 = btick ∧ (x3 = 'j' ∨ x3 = 'J') ∧
        (x4 = 's' ∨ x4 = 'S') ∧ (x5 = 'o' ∨ x5 = 'O') ∧
        (x6 = 'n' ∨ x6 = 'N') then
      stripJsonCI rest
    else x0 :: stripJsonCI (x1 :: x2 :: x3 :: x4 :: x5 :: x6 :: rest)
  | l => l

/-- `summaryText.replace(/```json|```/g, "")` (`part_000` line 122): at
each backtick triple try the case-sensitive `json` tag first, else remove
the bare triple. -/
def stripFenceAlt : List Char → List Char
  | x0 :: x1 :: x2 :: x3 :: x4 :: x5 :: x6 :: rest =>
    if x0 = btick ∧ x1 = btick ∧ x2 = btick then
      if x3 = 'j' ∧ x4 = 's' ∧ x5 = 'o' ∧ x6 = 'n' then stripFenceAlt rest
      else stripFenceAlt (x3 :: x4 :: x5 :: x6 :: rest)
    else x0 :: stripFenceAlt (x1 :: x2 :: x3 :: x4 :: x5 :: x6 :: rest)
  | x0 :: x1 :: x2 :: rest =>
    if x0 = btick ∧ x1 = btick ∧ x2 = btick then stripFenceAlt rest
    else x0 :: stripFenceAlt (x1 :: x2 :: rest)
  | l => l

/-- `summaryText.replace(/json|/g, "")` (`server.js` line 114, the mangled
fence regex of the first revision): the empty alternative matches
everywhere and removes nothing, so the net effect is removing each
case-sensitive `json`. -/
def stripJsonWord : List Char → List Char
  | 'j' :: 's' :: 'o' :: 'n' :: rest => stripJsonWord rest
  | c :: rest => c :: stripJsonWord rest
  | [] => []

/-- Scan for a colon as `.*?:` would: succeed at the first `:` reached
without crossing a line terminator (`.` does not match one), returning
the text after it. -/
def dropToColon : List Char → Option (List Char)
  | [] => none
  | ':' :: rest => some rest
  | '\n' :: _ => none
  | '\r' :: _ => none
  | _ :: rest => dropToColon rest

/-- `summaryText.replace(/^Here.*?:/i, "")` (`server.js` line 291): if the
string starts with `Here` in any letter case and a colon follows on the
same line, delete through that first colon; otherwise leave the string
unchanged. -/
def stripHere (l : List Char) : List Char :=
  match l with
  | c1 :: c2 :: c3 :: c4 :: rest =>
    if (c1 = 'H' ∨ c1 = 'h') ∧ (c2 = 'E' ∨ c2 = 'e') ∧
        (c3 = 'R' ∨ c3 = 'r') ∧ (c4 = 'E' ∨ c4 = 'e') then
      match dropToColon rest with
      | some r => r
      | none => l
    else l
  | _ => l

/-- `summaryText.match(/\{[\s\S]*\}/)` (`server.js` line 298): the match,
when it exists, runs from the first `{` to the last `}`; there is no
match when no `}` occurs after the first `{`. -/
def extractBraces (l : List Char) : Option (List Char) :=
  let fromBrace := l.dropWhile (fun c => !(c = '{'))
  match (fromBrace.reverse.dropWhile (fun c => !(c = '}'))).reverse with
  | [] => none
  | u => some u

/-- Does the string contain three consecutive backticks anywhere? -/
def hasTriple : List Char → Bool
  | a :: b :: c :: rest =>
    (a = btick && b = btick && c = btick) || hasTriple (b :: c :: rest)
  | _ => false

/-- The complete fence-strip step of `part_000` line 122, on strings. -/
def fenceStripA (s : String) : String := ⟨stripFenceAlt s.data⟩

/-- The complete fence-strip step of `server.js` lines 289-290, on
strings. -/
def fenceStripB (s : String) : String := ⟨stripTriple (stripJsonCI s.data)⟩

/-! ## The three response sanitizers -/

/-- Outcome of the `part_000` revision's parse step: HTTP 200 with the
parsed object, or the HTTP 500 `Failed to parse Gemini output as JSON`
response carrying the post-strip text. -/
inductive SanA where
  | ok (j : Json)
  | unparseable (raw : String)

/-- Outcome of the second `server.js` revision's parse step: success, the
`Failed to parse Gemini output as JSON` response, or — when the
brace-substring exists but `JSON.parse` throws on it inside the `catch`
block — the outer `Server error` response. -/
inductive SanB where
  | ok (j : Json)
  | unparseable (raw : String)
  | serverError

/-- Cleanup of `part_000` lines 122: the alternation fence strip, then
`trim`. -/
def cleanA (s : String) : List Char := trimChars (stripFenceAlt s.data)

/-- Response sanitizer of `part_000` lines 121-133: strip fences, trim,
then `summaryText ? JSON.parse(summaryText) : {}` — an empty cleaned
string is mapped to the empty object, not to a parse failure. -/
def sanitizeA (s : String) : SanA :=
  let t := cleanA s
  if t = [] then .ok (.obj [])
  else
    match jparseChars t with
    | some j => .ok j
    | none => .unparseable ⟨t⟩

/-- Cleanup of `server.js` lines 288-292: strip `/```json/gi`, strip
`/```/g`, strip `/^Here.*?:/i`, then `trim`. -/
def cleanB (s : String) : List Char :=
  trimChars (stripHere (stripTriple (stripJsonCI s.data)))

/-- Response sanitizer of `server.js` lines 288-308: clean, try a direct
parse, and on failure parse the first-`{`-to-last-`}` substring when it
exists; a throw from that inner parse escapes to the outer catch
(`serverError`), and with no substring the unparseable response carries
the cleaned text. -/
def sanitizeB (s : String) : SanB :=
  let t := cleanB s
  match jparseChars t with
  | some j => .ok j
  | none =>
    match extractBraces t with
    | some u =>
      match jparseChars u with
      | some j => .ok j
      | none => .serverError
    | none => .unparseable ⟨t⟩

/-- Response sanitizer of `server.js` lines 114-125 (first revision):
apply the mangled `/json|/g` replace, trim, then a direct parse with no
fallback. -/
def sanitizeR1 (s : String) : SanA :=
  let t := trimChars (stripJsonWord s.data)
  match jparseChars t with
  | some j => .ok j
  | none => .unparseable ⟨t⟩

/-- `part_000` line 119: `... .text || ""` — a missing nested text field
becomes the empty string (and an empty one stays empty). -/
def summaryTextA (f : Option String) : String :=
  match f with
  | some s => s
  | none => ""

/-- `server.js` line 283: `... .text || "{}"` — a missing or empty text
field becomes the placeholder `"{}"`. -/
def summaryTextB (f : Option String) : String :=
  match f with
  | some s => if s = "" then "\x7b\x7d" else s
  | none => "\x7b\x7d"

/-- `server.js` line 110 (first revision): `... .text || "No summary
found"`. -/
def summaryTextR1 (f : Option String) : String :=
  match f with
  | some s => if s = "" then "No summary found" else s
  | none => "No summary found"

/-- Wrap a rendered JSON payload in markdown code fences, as in the
round-trip property. -/
def fenceWrap (s : String) : String := "```json\n" ++ s ++ "\n```"

/-! ## The request handlers

Each handler is modelled as a pure function of the environment, the
request, and the stubbed behaviour of the two outbound services.  The
returned `Effects` record the observable side effects: whether the OCR
and completion calls were issued, how often the staged upload was
released, and the text that reached the prompt builder.  The
`unlinkFails` argument models whether the file-release call fails; the
code swallows that failure (`.catch(() => {})` in `part_000`, an ignored
callback error in `server.js`), so it cannot influence the result. -/

/-- Process environment: the optional completion-service API key. -/
structure Env where
  apiKey : Option String

/-- Inbound request: an optional `text_input` field and an optional staged
upload (its temporary path). -/
structure Req where
  text_input : Option String
  file : Option String

/-- Stubbed OCR service behaviour: a non-success HTTP response, or success
with the optional `tests_raw` array (`none` for a missing or non-array
field). -/
inductive OcrBeh where
  | httpFail (status : Nat) (bodyText : String)
  | success (tests_raw : Option (List String))

/-- Stubbed completion service behaviour: a non-success HTTP response, or
success with the optional nested `candidates[0].content.parts[0].text`
field. -/
inductive ComplBeh where
  | httpFail (status : Nat) (bodyText : String)
  | success (textField : Option String)

/-- Observable side effects of one request. -/
structure Effects where
  ocrCalled : Bool
  completionCalled : Bool
  unlinkCount : Nat
  extracted : Option String

/-- The distinguishable JSON response bodies of the handlers. -/
inductive Body where
  | ok (input_text : String) (summary : Json)
  | keyMissing
  | emptyInput
  | missingInput
  | ocrFailed (details : Option String)
  | ocrEmpty
  | completionFailed (details : String)
  | unparseable (raw : String)
  | serverError

/-- An HTTP response: status code and body. -/
structure HResp where
  status : Nat
  body : Body

/-- JavaScript truthiness of the `text_input` field: present and not the
empty string. -/
def textVal (req : Req) : Option String :=
  match req.text_input with
  | some s => if s = "" then none else some s
  | none => none

/-- `(data.tests_raw || []).join("\n")` / the `Array.isArray` variant: a
missing field joins to the empty string. -/
def joinedLines (tr : Option (List String)) : String :=
  match tr with
  | some l => String.intercalate "\n" l
  | none => ""

/-- Completion stage of `part_000` lines 99-139: a non-success response
becomes HTTP 502, otherwise the extracted model text runs through
`sanitizeA`. -/
def completionRespA (extractedText : String) (compl : ComplBeh) : HResp :=
  match compl with
  | .httpFail _ b => ⟨502, .completionFailed b⟩
  | .success f =>
    match sanitizeA (summaryTextA f) with
    | .ok j => ⟨200, .ok extractedText j⟩
    | .unparseable raw => ⟨500, .unparseable raw⟩

/-- The `part_000` handler (lines 35-148): key precheck, trimmed text
input with empty check, OCR with failure and empty-result checks, the
completion stage, and a `finally` that releases the staged path exactly
when the file branch set it. -/
def handlerA (env : Env) (req : Req) (ocr : OcrBeh) (compl : ComplBeh)
    (_unlinkFails : Bool) : HResp × Effects :=
  match env.apiKey with
  | none => (⟨500, .keyMissing⟩, ⟨false, false, 0, none⟩)
  | some _ =>
    match textVal req with
    | some s =>
      let t := trimStr s
      if t = "" then (⟨400, .emptyInput⟩, ⟨false, false, 0, none⟩)
      else (completionRespA t compl, ⟨false, true, 0, some t⟩)
    | none =>
      match req.file with
      | none => (⟨400, .missingInput⟩, ⟨false, false, 0, none⟩)
      | some _ =>
        match ocr with
        | .httpFail _ b => (⟨502, .ocrFailed (some b)⟩, ⟨true, false, 1, none⟩)
        | .success tr =>
          let e := joinedLines tr
          if e = "" then (⟨422, .ocrEmpty⟩, ⟨true, false, 1, none⟩)
          else (completionRespA e compl, ⟨true, true, 1, some e⟩)

/-- Completion stage of the first `server.js` revision (lines 89-125). -/
def completionRespR1 (extractedText : String) (compl : ComplBeh) : HResp :=
  match compl with
  | .httpFail _ b => ⟨500, .completionFailed b⟩
  | .success f =>
    match sanitizeR1 (summaryTextR1 f) with
    | .ok j => ⟨200, .ok extractedText j⟩
    | .unparseable raw => ⟨500, .unparseable raw⟩

/-- The first `server.js` handler (lines 24-136): no key precheck, the
text field used verbatim, no OCR empty-result check, and no release of
the staged upload on any path. -/
def handlerR1 (_env : Env) (req : Req) (ocr : OcrBeh) (compl : ComplBeh)
    (_unlinkFails : Bool) : HResp × Effects :=
  match textVal req with
  | some s => (completionRespR1 s compl, ⟨false, true, 0, some s⟩)
  | none =>
    match req.file with
    | none => (⟨400, .missingInput⟩, ⟨false, false, 0, none⟩)
    | some _ =>
      match ocr with
      | .httpFail _ _ => (⟨500, .ocrFailed none⟩, ⟨true, false, 0, none⟩)
      | .success tr =>
        let e := joinedLines tr
        (completionRespR1 e compl, ⟨true, true, 0, some e⟩)

/-- Completion stage of the second `server.js` revision (lines 264-308). -/
def completionRespR2 (extractedText : String) (compl : ComplBeh) : HResp :=
  match compl with
  | .httpFail _ b => ⟨500, .completionFailed b⟩
  | .success f =>
    match sanitizeB (summaryTextB f) with
    | .ok j => ⟨200, .ok extractedText j⟩
    | .unparseable raw => ⟨500, .unparseable raw⟩
    | .serverError => ⟨500, .serverError⟩

/-- The second `server.js` handler (lines 165-324): no key precheck, the
text field used verbatim, no OCR empty-result check, and
`if (req.file) fs.unlink(...)` issued only after the success response. -/
def handlerR2 (_env : Env) (req : Req) (ocr : OcrBeh) (compl : ComplBeh)
    (_unlinkFails : Bool) : HResp × Effects :=
  match textVal req with
  | some s =>
    let r := completionRespR2 s compl
    (r, ⟨false, true, if req.file.isSome ∧ r.status = 200 then 1 else 0, some s⟩)
  | none =>
    match req.file with
    | none => (⟨400, .missingInput⟩, ⟨false, false, 0, none⟩)
    | some _ =>
      match ocr with
      | .httpFail _ b => (⟨500, .ocrFailed (some b)⟩, ⟨true, false, 0, none⟩)
      | .success tr =>
        let e := joinedLines tr
        let r := completionRespR2 e compl
        (r, ⟨true, true, if r.status = 200 then 1 else 0, some e⟩)

/-! ## Claim C1: empty raw model output -/

/-- C1 counterexample.  The claim says an empty `RawModelOutput` (or a
missing text field) yields `ModelOutputUnparseable` and never the empty
object as success.  On the cited code the opposite happens: `part_000`
maps the empty cleaned string to `{}` (`summaryText ? JSON.parse(...) :
{}`), and `server.js` defaults a missing text field to the placeholder
`"{}"`, which parses to the empty object. -/
theorem C1_counterexample :
    sanitizeA "" = SanA.ok (Json.obj []) ∧
    sanitizeB (summaryTextB none) = SanB.ok (Json.obj []) := by
  exact ⟨rfl, rfl⟩

/-- C1 amended.  Empty raw model output is returned as the successful
empty object in both cited revisions: `part_000` maps an empty cleaned
string to `{}` directly, and `server.js` defaults a missing or empty text
field to `"{}"` before sanitizing; only the `server.js` pipeline applied
to a genuinely empty string (which the default prevents from occurring)
would report `ModelOutputUnparseable`. -/
theorem C1_empty_gives_empty_object :
    sanitizeA "" = SanA.ok (Json.obj []) ∧
    sanitizeB (summaryTextB none) = SanB.ok (Json.obj []) ∧
    sanitizeB (summaryTextB (some "")) = SanB.ok (Json.obj []) ∧
    sanitizeB "" = SanB.unparseable "" := by
  exact ⟨rfl, rfl, rfl, rfl⟩

/-! ## Claim C2: the brace-substring fallback -/

/-- C2 counterexample.  The claim says the prose-wrapped input
`Here is the result:\n{"a":1}\nThanks.` sanitizes to `{"a":1}`; the
`part_000` revision has no brace-substring fallback and rejects it. -/
theorem C2_counterexample :
    sanitizeA "Here is the result:\n\x7b\"a\":1\x7d\nThanks." =
      SanA.unparseable "Here is the result:\n\x7b\"a\":1\x7d\nThanks." := by
  rfl

/-- C2 amended.  In the `server.js` revision, whenever the direct parse of
the cleaned text (fence-stripped, `Here`-prefix-stripped, trimmed) fails
and that text contains a `{` with a later `}`, the sanitizer parses the
substring from the first `{` to the last `}` and succeeds exactly when
that substring is valid JSON (an invalid substring escapes to the generic
server error); the `part_000` revision has no such fallback. -/
theorem C2_brace_fallback (s : String) (u : List Char)
    (hdirect : jparseChars (cleanB s) = none)
    (hu : extractBraces (cleanB s) = some u) :
    sanitizeB s = (match jparseChars u with
      | some j => SanB.ok j
      | none => SanB.serverError) := by
  simp only [sanitizeB, hdirect, hu]

/-- C2 witness: the claim's concrete prose-wrapped input recovers
`{"a":1}` through the fallback in the `server.js` revision. -/
theorem C2_brace_fallback_witness :
    sanitizeB "Here is the result:\n\x7b\"a\":1\x7d\nThanks." =
      SanB.ok (Json.obj [("a", Json.num 1)]) := by
  have h := C2_brace_fallback "Here is the result:\n\x7b\"a\":1\x7d\nThanks."
    "\x7b\"a\":1\x7d".data (by rfl) (by rfl)
  exact h.trans (by rfl)

/-! ## Claim C5: literal text bypasses OCR -/

/-- C5 counterexample.  The claim says a non-empty literal text field is
produced with surrounding whitespace trimmed; the first `server.js`
revision forwards it verbatim. -/
theorem C5_counterexample :
    (handlerR1 ⟨some "k"⟩ ⟨some "  x  ", none⟩ (.success none)
      (.success (some "\x7b\x7d")) false).2.extracted = some "  x  " ∧
    trimStr "  x  " = "x" ∧ ("  x  " : String) ≠ "x" := by
  refine ⟨rfl, rfl, by decide⟩

/-- C5 amended.  For a truthy text field that is non-blank after trimming,
the `part_000` revision resolves to the trimmed text and the two
`server.js` revisions to the verbatim text; none of them invokes the OCR
client, even when a file is also attached. -/
theorem C5_resolver (env : Env) (req : Req) (ocr : OcrBeh) (compl : ComplBeh)
    (uf : Bool) (k s : String) (hk : env.apiKey = some k)
    (hs : textVal req = some s) (ht : trimStr s ≠ "") :
    (handlerA env req ocr compl uf).2.ocrCalled = false ∧
    (handlerA env req ocr compl uf).2.extracted = some (trimStr s) ∧
    (handlerR1 env req ocr compl uf).2.ocrCalled = false ∧
    (handlerR1 env req ocr compl uf).2.extracted = some s ∧
    (handlerR2 env req ocr compl uf).2.ocrCalled = false ∧
    (handlerR2 env req ocr compl uf).2.extracted = some s := by
  simp [handlerA, handlerR1, handlerR2, hk, hs, ht]

/-- C5 witness: concrete trimmed text input, file also present. -/
theorem C5_resolver_witness :
    (handlerA ⟨some "k"⟩ ⟨some " hb 10 ", some "up.png"⟩ (.success none)
      (.success none) false).2.ocrCalled = false ∧
    (handlerA ⟨some "k"⟩ ⟨some " hb 10 ", some "up.png"⟩ (.success none)
      (.success none) false).2.extracted = some (trimStr " hb 10 ") ∧
    (handlerR1 ⟨some "k"⟩ ⟨some " hb 10 ", some "up.png"⟩ (.success none)
      (.success none) false).2.ocrCalled = false ∧
    (handlerR1 ⟨some "k"⟩ ⟨some " hb 10 ", some "up.png"⟩ (.success none)
      (.success none) false).2.extracted = some " hb 10 " ∧
    (handlerR2 ⟨some "k"⟩ ⟨some " hb 10 ", some "up.png"⟩ (.success none)
      (.success none) false).2.ocrCalled = false ∧
    (handlerR2 ⟨some "k"⟩ ⟨some " hb 10 ", some "up.png"⟩ (.success none)
      (.success none) false).2.extracted = some " hb 10 " := by
  exact C5_resolver ⟨some "k"⟩ ⟨some " hb 10 ", some "up.png"⟩ (.success none)
    (.success none) false "k" " hb 10 " rfl rfl (by decide)

/-! ## Claim C6: blank text input -/

/-- C6 counterexample.  The claim says whitespace-only text fails
immediately with `EmptyInput` and no outbound call; the first `server.js`
revision forwards the blank text to the completion service. -/
theorem C6_counterexample :
    (handlerR1 ⟨some "k"⟩ ⟨some "   ", none⟩ (.success none)
      (.httpFail 403 "denied") false).2.completionCalled = true ∧
    (handlerR1 ⟨some "k"⟩ ⟨some "   ", none⟩ (.success none)
      (.httpFail 403 "denied") false).1 = ⟨500, .completionFailed "denied"⟩ := by
  exact ⟨rfl, rfl⟩

/-- C6 amended.  In the `part_000` revision (with the API key configured,
since its key precheck runs first), a truthy text field that is blank
after trimming yields the HTTP 400 empty-input error with no OCR or
completion call; the `server.js` revisions lack the check and forward the
blank text. -/
theorem C6_empty_input (env : Env) (req : Req) (ocr : OcrBeh)
    (compl : ComplBeh) (uf : Bool) (k s : String) (hk : env.apiKey = some k)
    (hs : textVal req = some s) (ht : trimStr s = "") :
    handlerA env req ocr compl uf =
      (⟨400, .emptyInput⟩, ⟨false, false, 0, none⟩) := by
  simp [handlerA, hk, hs, ht]

/-- C6 witness: a whitespace-only text input. -/
theorem C6_empty_input_witness :
    handlerA ⟨some "k"⟩ ⟨some "   ", none⟩ (.success none)
      (.httpFail 403 "denied") false =
      (⟨400, .emptyInput⟩, ⟨false, false, 0, none⟩) := by
  exact C6_empty_input ⟨some "k"⟩ ⟨some "   ", none⟩ (.success none)
    (.httpFail 403 "denied") false "k" "   " rfl rfl (by decide)

/-! ## Claim C7: empty OCR result -/

/-- C7 counterexample.  The claim says an OCR success whose joined lines
are empty yields `OcrEmptyResult` and the completion service is never
called; the first `server.js` revision has no empty check and calls the
completion service with the empty extraction. -/
theorem C7_counterexample :
    (handlerR1 ⟨some "k"⟩ ⟨none, some "up.png"⟩ (.success (some []))
      (.httpFail 403 "denied") false).2.completionCalled = true ∧
    (handlerR1 ⟨some "k"⟩ ⟨none, some "up.png"⟩ (.success (some []))
      (.httpFail 403 "denied") false).2.extracted = some "" := by
  exact ⟨rfl, rfl⟩

/-- C7 amended.  In the `part_000` revision (key configured), a file
request whose OCR call succeeds but joins to the empty string — the field
absent, an empty array, or blank lines — fails with the distinct HTTP 422
empty-result error, and the completion service is not called; the
`server.js` revisions forward the empty extraction instead. -/
theorem C7_ocr_empty (env : Env) (req : Req) (compl : ComplBeh) (uf : Bool)
    (k p : String) (tr : Option (List String)) (hk : env.apiKey = some k)
    (ht : textVal req = none) (hf : req.file = some p)
    (hj : joinedLines tr = "") :
    handlerA env req (.success tr) compl uf =
      (⟨422, .ocrEmpty⟩, ⟨true, false, 1, none⟩) := by
  simp [handlerA, hk, ht, hf, hj]

/-- C7 witness: the OCR stub returns `{ "tests_raw": [] }`. -/
theorem C7_ocr_empty_witness :
    handlerA ⟨some "k"⟩ ⟨none, some "up.png"⟩ (.success (some []))
      (.httpFail 403 "denied") false =
      (⟨422, .ocrEmpty⟩, ⟨true, false, 1, none⟩) := by
  exact C7_ocr_empty ⟨some "k"⟩ ⟨none, some "up.png"⟩ (.httpFail 403 "denied")
    false "k" "up.png" (some []) rfl rfl rfl rfl

/-! ## Claim C8: missing API key -/

/-- C8 counterexample.  The claim says a missing completion-service key
fails before any outbound call; the first `server.js` revision never
checks the key — it calls the completion service on a text request and
the OCR service on a file request. -/
theorem C8_counterexample :
    (handlerR1 ⟨none⟩ ⟨some "x", none⟩ (.success none)
      (.httpFail 400 "API key not valid") false).2.completionCalled = true ∧
    (handlerR1 ⟨none⟩ ⟨none, some "up.png"⟩ (.httpFail 500 "boom")
      (.success none) false).2.ocrCalled = true := by
  exact ⟨rfl, rfl⟩

/-- C8 amended.  The `part_000` revision checks the key before resolving
the input: with no key configured every request fails with the
key-missing error and neither the OCR nor the completion call is issued;
the `server.js` revisions issue their calls with the unchecked key. -/
theorem C8_key_precheck (env : Env) (req : Req) (ocr : OcrBeh)
    (compl : ComplBeh) (uf : Bool) (hk : env.apiKey = none) :
    handlerA env req ocr compl uf =
      (⟨500, .keyMissing⟩, ⟨false, false, 0, none⟩) := by
  simp [handlerA, hk]

/-- C8 witness: no key, a file request. -/
theorem C8_key_precheck_witness :
    handlerA ⟨none⟩ ⟨none, some "up.png"⟩ (.httpFail 500 "boom")
      (.success none) false =
      (⟨500, .keyMissing⟩, ⟨false, false, 0, none⟩) := by
  exact C8_key_precheck ⟨none⟩ ⟨none, some "up.png"⟩ (.httpFail 500 "boom")
    (.success none) false rfl

/-! ## Claim C9: release of the staged upload -/

/-- C9 counterexample.  The claim says the staged file is released exactly
once on every failure path; the second `server.js` revision unlinks only
after the success response, so an OCR failure leaks the staged file. -/
theorem C9_counterexample :
    (handlerR2 ⟨some "k"⟩ ⟨none, some "up.png"⟩ (.httpFail 500 "boom")
      (.success none) false).2.unlinkCount = 0 ∧
    (handlerR2 ⟨some "k"⟩ ⟨none, some "up.png"⟩ (.httpFail 500 "boom")
      (.success none) false).1.status = 500 := by
  exact ⟨rfl, rfl⟩

/-- C9 amended.  In the `part_000` revision, once the file branch is
entered (key configured, no truthy text, a file staged) the upload is
released exactly once — on the success path and on the OCR, completion
and sanitizer failure paths alike — and a failing release cannot change
the handler's result; the second `server.js` revision releases only on
success, and a file accompanying a text request is not released by
`part_000` at all. -/
theorem C9_release (env : Env) (req : Req) (ocr : OcrBeh) (compl : ComplBeh)
    (k p : String) (hk : env.apiKey = some k) (ht : textVal req = none)
    (hf : req.file = some p) :
    (handlerA env req ocr compl false).2.unlinkCount = 1 ∧
    (handlerA env req ocr compl true).2.unlinkCount = 1 ∧
    handlerA env req ocr compl true = handlerA env req ocr compl false := by
  refine ⟨?_, ?_, rfl⟩ <;>
  · simp only [handlerA, hk, ht, hf]
    cases ocr with
    | httpFail st b => rfl
    | success tr =>
      by_cases hj : joinedLines tr = "" <;> simp [hj]

/-- C9 witness: a file request whose completion stage fails. -/
theorem C9_release_witness :
    (handlerA ⟨some "k"⟩ ⟨none, some "up.png"⟩ (.success (some ["Hb 10"]))
      (.httpFail 503 "overloaded") false).2.unlinkCount = 1 ∧
    (handlerA ⟨some "k"⟩ ⟨none, some "up.png"⟩ (.success (some ["Hb 10"]))
      (.httpFail 503 "overloaded") true).2.unlinkCount = 1 ∧
    handlerA ⟨some "k"⟩ ⟨none, some "up.png"⟩ (.success (some ["Hb 10"]))
      (.httpFail 503 "overloaded") true =
      handlerA ⟨some "k"⟩ ⟨none, some "up.png"⟩ (.success (some ["Hb 10"]))
      (.httpFail 503 "overloaded") false := by
  exact C9_release ⟨some "k"⟩ ⟨none, some "up.png"⟩ (.success (some ["Hb 10"]))
    (.httpFail 503 "overloaded") "k" "up.png" rfl rfl rfl

/-! ## Claim C10: the `Here`-prefix strip -/

/-- Scanning `.*?:` over text free of colons and line terminators reaches
the colon that follows it. -/
theorem dropToColon_append (pre rest : List Char) (hc : ':' ∉ pre)
    (hn : '\n' ∉ pre) (hr : '\r' ∉ pre) :
    dropToColon (pre ++ ':' :: rest) = some rest := by
  induction pre with
  | nil => rfl
  | cons c cs ih =>
    have hc1 : c ≠ ':' := fun h => hc (h ▸ List.mem_cons_self c cs)
    have hn1 : c ≠ '\n' := fun h => hn (h ▸ List.mem_cons_self c cs)
    have hr1 : c ≠ '\r' := fun h => hr (h ▸ List.mem_cons_self c cs)
    have ih' := ih (fun h => hc (List.mem_cons_of_mem c h))
      (fun h => hn (List.mem_cons_of_mem c h))
      (fun h => hr (List.mem_cons_of_mem c h))
    rw [List.cons_append, dropToColon.eq_def]
    split <;> simp_all

/-- C10.  The `server.js` revision deletes, before its direct parse, any
leading `Here` prefix (case-insensitive) through the first colon reached
without crossing a line terminator; consequently, for an input starting
with `Here` whose first colon lies inside the JSON payload, part of the
JSON is deleted: `Here {"a":1}` loses `{"a"` and fails as unparseable
`1}`, although `{"a":1}` itself is valid JSON. -/
theorem C10_here_strip (c1 c2 c3 c4 : Char) (pre rest : List Char)
    (h1 : c1 = 'H' ∨ c1 = 'h') (h2 : c2 = 'E' ∨ c2 = 'e')
    (h3 : c3 = 'R' ∨ c3 = 'r') (h4 : c4 = 'E' ∨ c4 = 'e')
    (hc : ':' ∉ pre) (hn : '\n' ∉ pre) (hr : '\r' ∉ pre) :
    stripHere (c1 :: c2 :: c3 :: c4 :: (pre ++ ':' :: rest)) = rest ∧
    sanitizeB "Here \x7b\"a\":1\x7d" = SanB.unparseable "1\x7d" ∧
    jparse "\x7b\"a\":1\x7d" = some (Json.obj [("a", Json.num 1)]) := by
  refine ⟨?_, rfl, rfl⟩
  simp only [stripHere]
  rw [if_pos ⟨h1, h2, h3, h4⟩, dropToColon_append pre rest hc hn hr]

/-- C10 witness: the prefix `Here is the result:` is deleted, and the
concrete mutilation facts. -/
theorem C10_here_strip_witness :
    stripHere ('H' :: 'e' :: 'r' :: 'e' :: (" is the result".data ++
      ':' :: " rest".data)) = " rest".data ∧
    sanitizeB "Here \x7b\"a\":1\x7d" = SanB.unparseable "1\x7d" ∧
    jparse "\x7b\"a\":1\x7d" = some (Json.obj [("a", Json.num 1)]) := by
  exact C10_here_strip 'H' 'e' 'r' 'e' " is the result".data " rest".data
    (Or.inl rfl) (Or.inr rfl) (Or.inr rfl) (Or.inr rfl)
    (by decide) (by decide) (by decide)

/-! ## Claim C4: fence stripping -/

/-- A non-backtick head passes through `stripTriple` unchanged. -/
theorem stripTriple_cons_ne (c : Char) (l : List Char) (hc : c ≠ btick) :
    stripTriple (c :: l) = c :: stripTriple l := by
  match l with
  | [] => rfl
  | [b] => rfl
  | b :: d :: t => simp [stripTriple, hc]

/-- After `replace(/```/g, "")` no three consecutive backticks remain:
removing the leftmost triples cannot splice a new one together. -/
theorem hasTriple_stripTriple (l : List Char) :
    hasTriple (stripTriple l) = false := by
  induction l using stripTriple.induct with
  | case1 a b c rest h ih =>
    rw [stripTriple, if_pos h]
    exact ih
  | case2 a b c rest h ih =>
    rw [stripTriple, if_neg h]
    by_cases hA : a = btick
    · subst hA
      by_cases hB : b = btick
      · subst hB
        have hC : c ≠ btick := fun hc => h ⟨rfl, rfl, hc⟩
        cases rest with
        | nil => simp [stripTriple, hasTriple, hC]
        | cons e rest2 =>
          rw [show stripTriple (btick :: c :: e :: rest2) =
              btick :: stripTriple (c :: e :: rest2) from by
            simp [stripTriple, hC]] at ih ⊢
          rw [stripTriple_cons_ne c _ hC] at ih ⊢
          rw [hasTriple]
          simp [hC, ih]
      · rw [stripTriple_cons_ne b _ hB] at ih ⊢
        cases hZ : stripTriple (c :: rest) with
        | nil => rfl
        | cons z zs =>
          rw [hZ] at ih
          rw [hasTriple]
          simp [hB, ih]
    · cases hX : stripTriple (b :: c :: rest) with
      | nil => rfl
      | cons x1 X1 =>
        cases X1 with
        | nil => rfl
        | cons x2 X2 =>
          rw [hX] at ih
          rw [hasTriple]
          simp [hA, ih]
  | case3 l hl =>
    cases l with
    | nil => rfl
    | cons a t =>
      cases t with
      | nil => rfl
      | cons b t2 =>
        cases t2 with
        | nil => rfl
        | cons c rest => exact (hl a b c rest rfl).elim

/-- C4 counterexample.  The claim says the fence-stripping step removes
the opening fence token together with its language tag regardless of
letter case; the `part_000` revision matches the tag case-sensitively, so
stripping `"```JSON"` leaves `"JSON"` instead of the empty string. -/
theorem C4_counterexample :
    fenceStripA "```JSON" = "JSON" ∧ ("JSON" : String) ≠ "" := by
  exact ⟨rfl, by decide⟩

/-- C4 amended.  The `server.js` revision strips as claimed: after its two
replaces no fence token (three consecutive backticks) survives anywhere,
for any input — matched pairs or stray tokens alike — and the `json` tag
is removed case-insensitively; the `part_000` revision removes bare
triples and the lower-case tagged fence, but matches the tag
case-sensitively, so an upper-case tag such as `JSON` is left behind
(only its backticks are removed). -/
theorem C4_fence_strip (s : String) :
    hasTriple (fenceStripB s).data = false ∧
    fenceStripB "```JSON" = "" ∧
    fenceStripB "```" = "" ∧
    fenceStripA "```json" = "" ∧
    fenceStripA "```" = "" ∧
    fenceStripA "```JSON" = "JSON" := by
  exact ⟨hasTriple_stripTriple _, rfl, rfl, rfl, rfl, rfl⟩

/-! ## Claim C3: the fence-wrapped round trip

First the parser/serializer round trip, built up from numerals, string
escapes, and a fuel induction over the mutual parser. -/

/-- `Char.ofNat` below the surrogate range keeps its code. -/
theorem toNat_ofNat_small (n : Nat) (h : n < 55296) : (Char.ofNat n).toNat = n := by
  have hv : n.isValidChar := Or.inl h
  simp [Char.ofNat, hv, Char.toNat, Char.ofNatAux, UInt32.toNat, BitVec.toNat_ofNat]

/-- Digit characters decode to their digit. -/
theorem digitVal_jdigitChar (d : Nat) (h : d < 10) :
    digitVal (jdigitChar d) = d := by
  unfold digitVal jdigitChar
  rw [toNat_ofNat_small _ (by omega)]
  omega

/-- Digit characters pass the digit test. -/
theorem isDigitC_jdigitChar (d : Nat) (h : d < 10) :
    isDigitC (jdigitChar d) = true := by
  unfold isDigitC jdigitChar
  rw [toNat_ofNat_small _ (by omega)]
  simp
  omega

/-- Folding one more digit. -/
theorem digitsToNat_append (xs : List Char) (c : Char) :
    digitsToNat (xs ++ [c]) = 10 * digitsToNat xs + digitVal c := by
  simp [digitsToNat, List.foldl_append]

/-- No digits are printed for zero. -/
theorem natCharsAux_zero (fuel : Nat) : natCharsAux fuel 0 = [] := by
  cases fuel <;> simp [natCharsAux]

/-- The printed digits of `n` evaluate back to `n`. -/
theorem digitsToNat_natCharsAux (fuel : Nat) :
    ∀ n, n < 10 ^ fuel → digitsToNat (natCharsAux fuel n) = n := by
  induction fuel with
  | zero =>
    intro n h
    simp at h
    simp [h, natCharsAux, digitsToNat]
  | succ f ih =>
    intro n h
    rw [natCharsAux]
    by_cases h0 : n = 0
    · simp [h0, digitsToNat]
    · rw [if_neg h0, digitsToNat_append,
        ih _ (by rw [Nat.div_lt_iff_lt_mul (by omega)]; rw [pow_succ] at h; omega),
        digitVal_jdigitChar _ (Nat.mod_lt _ (by omega))]
      omega

/-- The printed digits of a positive `n` start with a nonzero digit. -/
theorem natCharsAux_head (fuel : Nat) :
    ∀ n, n ≠ 0 → n < 10 ^ fuel →
      ∃ d t, natCharsAux fuel n = jdigitChar d :: t ∧ d ≠ 0 ∧ d < 10 := by
  induction fuel with
  | zero =>
    intro n hn h
    simp at h
    omega
  | succ f ih =>
    intro n hn h
    rw [natCharsAux, if_neg hn]
    by_cases hd : n / 10 = 0
    · refine ⟨n % 10, [], ?_, by omega, by omega⟩
      rw [hd, natCharsAux_zero]
      rfl
    · obtain ⟨d, t, heq, hd0, hlt⟩ := ih (n / 10) hd
        (by rw [Nat.div_lt_iff_lt_mul (by omega)]; rw [pow_succ] at h; omega)
      exact ⟨d, t ++ [jdigitChar (n % 10)], by rw [heq]; rfl, hd0, hlt⟩

/-- Every printed character is a digit. -/
theorem natCharsAux_digits (fuel : Nat) :
    ∀ n, ∀ c ∈ natCharsAux fuel n, isDigitC c = true := by
  induction fuel with
  | zero => intro n c hc; simp [natCharsAux] at hc
  | succ f ih =>
    intro n c hc
    rw [natCharsAux] at hc
    by_cases h0 : n = 0
    · simp [h0] at hc
    · rw [if_neg h0] at hc
      rcases List.mem_append.1 hc with h | h
      · exact ih _ _ h
      · simp at h
        rw [h]
        exact isDigitC_jdigitChar _ (Nat.mod_lt _ (by omega))

/-- Every character of a printed natural is a digit. -/
theorem serNat_digits (n : Nat) : ∀ c ∈ serNat n, isDigitC c = true := by
  unfold serNat
  by_cases h0 : n = 0
  · simp [h0]
    rfl
  · rw [if_neg h0]
    exact natCharsAux_digits n n

/-- A printed natural is never empty. -/
theorem serNat_ne_nil (n : Nat) : serNat n ≠ [] := by
  unfold serNat
  by_cases h0 : n = 0
  · simp [h0]
  · rw [if_neg h0]
    obtain ⟨d, t, heq, -, -⟩ :=
      natCharsAux_head n n h0 (Nat.lt_pow_self (by omega) n)
    simp [heq]

/-- A printed natural never carries a superfluous leading zero. -/
theorem noLeadingZero_serNat (n : Nat) : noLeadingZero (serNat n) = true := by
  unfold serNat
  by_cases h0 : n = 0
  · simp [h0]
    rfl
  · rw [if_neg h0]
    obtain ⟨d, t, heq, hd0, hlt⟩ :=
      natCharsAux_head n n h0 (Nat.lt_pow_self (by omega) n)
    rw [heq]
    have hne : jdigitChar d ≠ '0' := by
      intro hh
      have h1 := digitVal_jdigitChar d hlt
      rw [hh, show digitVal '0' = 0 from rfl] at h1
      exact hd0 h1.symm
    rw [noLeadingZero.eq_def]
    split <;> simp_all

/-- The printed digits of a natural evaluate back to it. -/
theorem digitsToNat_serNat (n : Nat) : digitsToNat (serNat n) = n := by
  unfold serNat
  by_cases h0 : n = 0
  · simp [h0]
    rfl
  · rw [if_neg h0]
    exact digitsToNat_natCharsAux n n (Nat.lt_pow_self (by omega) n)

/-- Splitting `takeWhile` / `dropWhile` at a boundary where the predicate
flips. -/
theorem span_append_eq {α} (p : α → Bool) (xs ys : List α)
    (hxs : ∀ x ∈ xs, p x = true) (hys : ∀ c t, ys = c :: t → p c = false) :
    (xs ++ ys).takeWhile p = xs ∧ (xs ++ ys).dropWhile p = ys := by
  induction xs with
  | nil =>
    cases ys with
    | nil => simp
    | cons c t =>
      have := hys c t rfl
      simp [List.takeWhile_cons, List.dropWhile_cons, this]
  | cons x xs ih =>
    have hx := hxs x (List.mem_cons_self _ _)
    have ih' := ih fun a ha => hxs a (List.mem_cons_of_mem _ ha)
    simp [List.takeWhile_cons, List.dropWhile_cons, hx, ih'.1, ih'.2]

/-- `parseNumTok` reads back a printed natural, stopping at a non-digit. -/
theorem parseNumTok_serNat (n : Nat) (rest : List Char)
    (hrest : ∀ c t, rest = c :: t → isDigitC c = false) :
    parseNumTok (serNat n ++ rest) = some (.num (n : Int), rest) := by
  have span := span_append_eq isDigitC (serNat n) rest (serNat_digits n) hrest
  obtain ⟨c, t, heq, hc⟩ : ∃ c t, serNat n = c :: t ∧ isDigitC c = true := by
    cases hsn : serNat n with
    | nil => exact absurd hsn (serNat_ne_nil n)
    | cons c t =>
      exact ⟨c, t, rfl, serNat_digits n c (hsn ▸ List.mem_cons_self c t)⟩
  have hcm : c ≠ '-' := by
    intro hh
    rw [hh] at hc
    exact absurd hc (by decide)
  rw [parseNumTok.eq_def]
  split
  · rename_i l hl
    exfalso
    rw [heq, List.cons_append] at hl
    injection hl with h1 _
    exact hcm h1
  · simp only [span.1, span.2]
    simp [serNat_ne_nil n, noLeadingZero_serNat n, digitsToNat_serNat]

/-- `parseNumTok` reads back a printed integer, stopping at a non-digit. -/
theorem parseNumTok_serInt (i : Int) (rest : List Char)
    (hrest : ∀ c t, rest = c :: t → isDigitC c = false) :
    parseNumTok (serInt i ++ rest) = some (.num i, rest) := by
  unfold serInt
  by_cases hi : i < 0
  · rw [if_pos hi, List.cons_append, parseNumTok]
    have span := span_append_eq isDigitC (serNat i.natAbs) rest
      (serNat_digits _) hrest
    simp only [span.1, span.2]
    rw [if_neg (by simp [serNat_ne_nil, noLeadingZero_serNat]),
      digitsToNat_serNat]
    have habs : -((i.natAbs : Nat) : Int) = i := by omega
    rw [habs]
  · rw [if_neg hi, parseNumTok_serNat i.toNat rest hrest]
    simp [Int.toNat_of_nonneg (by omega : (0 : Int) ≤ i)]

/-- Hexadecimal digit characters decode to their value. -/
theorem hexVal_hexChar : ∀ d, d < 16 → hexVal (hexChar d) = some d := by
  decide


/-- The escape encoding of a string body is decoded back by the string
parser, which then consumes the closing quote. -/
theorem parseStrChars_escList (cs : List Char) (rest : List Char) :
    parseStrChars (escList cs ++ '"' :: rest) = some (cs, rest) := by
  induction cs with
  | nil => rfl
  | cons c cs ih =>
    rw [escList, List.append_assoc]
    unfold escChar
    split_ifs with h1 h2 h3 h4 h5 h6 h7 h8
    · subst h1; simp [parseStrChars, parseStrEsc, ih]
    · subst h2; simp [parseStrChars, parseStrEsc, ih]
    · subst h3; simp [parseStrChars, parseStrEsc, ih]
    · subst h4; simp [parseStrChars, parseStrEsc, ih]
    · subst h5; simp [parseStrChars, parseStrEsc, ih]
    · subst h6; simp [parseStrChars, parseStrEsc, ih]
    · subst h7; simp [parseStrChars, parseStrEsc, ih]
    · simp only [List.cons_append, List.nil_append]
      rw [parseStrChars, if_neg (by decide), if_pos rfl, parseStrEsc,
        if_neg (show ('u' : Char) ≠ '"' by decide),
        if_neg (show ('u' : Char) ≠ '\\' by decide),
        if_neg (show ('u' : Char) ≠ '/' by decide),
        if_neg (show ('u' : Char) ≠ 'b' by decide),
        if_neg (show ('u' : Char) ≠ 'f' by decide),
        if_neg (show ('u' : Char) ≠ 'n' by decide),
        if_neg (show ('u' : Char) ≠ 'r' by decide),
        if_neg (show ('u' : Char) ≠ 't' by decide),
        if_pos (show ('u' : Char) = 'u' from rfl)]
      simp only [hexVal_hexChar _ (show c.toNat / 16 < 16 by omega),
        hexVal_hexChar _ (show c.toNat % 16 < 16 by omega),
        show hexVal '0' = some 0 from rfl, ih, Option.map_some']
      have hv : 4096 * 0 + 256 * 0 + 16 * (c.toNat / 16) + c.toNat % 16 =
          c.toNat := by omega
      rw [hv, Char.ofNat_toNat]
    · simp only [List.cons_append, List.nil_append]
      rw [parseStrChars, if_neg h1, if_neg h2, if_neg h8]
      simp [ih]

/-- `skipWs` keeps a non-whitespace head. -/
theorem skipWs_cons_of (c : Char) (l : List Char) (h : isJsonWs c = false) :
    skipWs (c :: l) = c :: l := by
  simp [skipWs, List.dropWhile_cons, h]

/-- A character with none of the four whitespace codes is not JSON
whitespace. -/
theorem isJsonWs_eq_false (c : Char) (h32 : c.toNat ≠ 32) (h9 : c.toNat ≠ 9)
    (h10 : c.toNat ≠ 10) (h13 : c.toNat ≠ 13) : isJsonWs c = false := by
  unfold isJsonWs
  simp only [Bool.or_eq_false_iff, decide_eq_false_iff_not]
  exact ⟨⟨⟨fun he => h32 (by rw [he]; rfl), fun he => h9 (by rw [he]; rfl)⟩,
    fun he => h10 (by rw [he]; rfl)⟩, fun he => h13 (by rw [he]; rfl)⟩

/-- A printed integer starts with a minus sign or a digit. -/
theorem serInt_head (i : Int) :
    ∃ c t, serInt i = c :: t ∧ (c = '-' ∨ isDigitC c = true) := by
  unfold serInt
  by_cases hi : i < 0
  · rw [if_pos hi]
    exact ⟨'-', serNat i.natAbs, rfl, Or.inl rfl⟩
  · rw [if_neg hi]
    cases hsn : serNat i.toNat with
    | nil => exact absurd hsn (serNat_ne_nil _)
    | cons c t =>
      exact ⟨c, t, rfl, Or.inr (serNat_digits _ c (hsn ▸ List.mem_cons_self c t))⟩

/-- On a head that matches none of the structured starts, `parseVal` falls
through to the number token parser. -/
theorem parseVal_head_other (fuel : Nat) (c : Char) (t : List Char)
    (hws : isJsonWs c = false) (h1 : c ≠ 'n') (h2 : c ≠ 't') (h3 : c ≠ 'f')
    (h4 : c ≠ '"') (h5 : c ≠ '[') (h6 : c ≠ '{') :
    parseVal (fuel + 1) (c :: t) = parseNumTok (c :: t) := by
  rw [parseVal]
  simp only [skipWs_cons_of c t hws]
  rw [if_neg h1, if_neg h2, if_neg h3, if_neg h4, if_neg h5, if_neg h6]

/-- On a numeral head, `parseVal` is the number token parser. -/
theorem parseVal_numeral (fuel : Nat) (c : Char) (t : List Char)
    (h : c = '-' ∨ isDigitC c = true) :
    parseVal (fuel + 1) (c :: t) = parseNumTok (c :: t) := by
  have htn : c.toNat = 45 ∨ (48 ≤ c.toNat ∧ c.toNat ≤ 57) := by
    rcases h with h | h
    · left
      rw [h]
      rfl
    · right
      simpa [isDigitC] using h
  have hne : ∀ d : Char, d.toNat ≠ 45 → ¬(48 ≤ d.toNat ∧ d.toNat ≤ 57) →
      c ≠ d := by
    intro d hd1 hd2 he
    rw [he] at htn
    rcases htn with hh | hh
    · exact hd1 hh
    · exact hd2 hh
  exact parseVal_head_other fuel c t
    (isJsonWs_eq_false c (by omega) (by omega) (by omega) (by omega))
    (hne 'n' (by decide) (by decide)) (hne 't' (by decide) (by decide))
    (hne 'f' (by decide) (by decide)) (hne '"' (by decide) (by decide))
    (hne '[' (by decide) (by decide)) (hne '{' (by decide) (by decide))

/-- Every serialized value starts with one of the recognized first
characters, and in particular not with whitespace, `]`, `}`, or `,`. -/
theorem serValue_head (j : Json) :
    ∃ c t, serValue j = c :: t ∧
      (c = '"' ∨ c = '[' ∨ c = '{' ∨ c = 'n' ∨ c = 't' ∨ c = 'f' ∨
       c = '-' ∨ isDigitC c = true) := by
  cases j with
  | null => exact ⟨'n', _, rfl, by simp⟩
  | bool b =>
    cases b with
    | true => exact ⟨'t', _, rfl, by simp⟩
    | false => exact ⟨'f', _, rfl, by simp⟩
  | num i =>
    obtain ⟨c, t, heq, hc⟩ := serInt_head i
    exact ⟨c, t, heq, by tauto⟩
  | str s => exact ⟨'"', _, rfl, by simp⟩
  | arr l => exact ⟨'[', _, rfl, by simp⟩
  | obj f => exact ⟨'{', _, rfl, by simp⟩

/-- Consequences of `serValue_head` used at the parser's branch points. -/
theorem serValue_head_facts (c : Char)
    (h : c = '"' ∨ c = '[' ∨ c = '{' ∨ c = 'n' ∨ c = 't' ∨ c = 'f' ∨
      c = '-' ∨ isDigitC c = true) :
    isJsonWs c = false ∧ c ≠ ']' ∧ c ≠ '}' := by
  have htn : c.toNat = 34 ∨ c.toNat = 91 ∨ c.toNat = 123 ∨ c.toNat = 110 ∨
      c.toNat = 116 ∨ c.toNat = 102 ∨ c.toNat = 45 ∨
      (48 ≤ c.toNat ∧ c.toNat ≤ 57) := by
    rcases h with rfl | rfl | rfl | rfl | rfl | rfl | rfl | hd
    all_goals try decide
    right; right; right; right; right; right; right
    simpa [isDigitC] using hd
  refine ⟨isJsonWs_eq_false c (by omega) (by omega) (by omega) (by omega),
    fun he => ?_, fun he => ?_⟩
  · rw [he, show (']').toNat = 93 from rfl] at htn
    omega
  · rw [he, show ('}').toNat = 125 from rfl] at htn
    omega

/-- Fuel bounds are positive on values. -/
theorem jfuel_pos (j : Json) : 1 ≤ jfuel j := by
  cases j <;> simp [jfuel]

/-- The serialized form of every value, array element list, and field list
parses back exactly, given enough fuel; numbers additionally need the
remainder not to begin with a digit, which the serializer's separators
guarantee. -/
theorem parse_ser (fuel : Nat) :
    (∀ j rest, jfuel j ≤ fuel →
      (∀ c t, rest = c :: t → isDigitC c = false) →
      parseVal fuel (serValue j ++ rest) = some (j, rest)) ∧
    (∀ j es rest, lfuel (j :: es) ≤ fuel →
      parseElems fuel (serValue j ++ (serElemsTail es ++ ']' :: rest)) =
        some (j :: es, rest)) ∧
    (∀ k v fs rest, ffuel ((k, v) :: fs) ≤ fuel →
      parseFields fuel
          ('"' :: (escList k.data ++ '"' :: ':' ::
            (serValue v ++ (serFieldsTail fs ++ '}' :: rest)))) =
        some ((k, v) :: fs, rest)) := by
  induction fuel with
  | zero =>
    refine ⟨fun j rest hj _ => absurd hj (by have := jfuel_pos j; omega),
      fun j es rest h => absurd h (by rw [lfuel]; omega),
      fun k v fs rest h => absurd h (by rw [ffuel]; omega)⟩
  | succ fuel ih =>
    obtain ⟨ihv, ihe, ihf⟩ := ih
    refine ⟨?_, ?_, ?_⟩
    · intro j rest hj hrest
      cases j with
      | null => rfl
      | bool b => cases b <;> rfl
      | num i =>
        obtain ⟨c, t, heq, hc⟩ := serInt_head i
        rw [show serValue (.num i) = serInt i from rfl, heq, List.cons_append,
          parseVal_numeral fuel c (t ++ rest) hc, ← List.cons_append, ← heq]
        exact parseNumTok_serInt i rest hrest
      | str s =>
        rw [show serValue (.str s) ++ rest =
          '"' :: (escList s.data ++ '"' :: rest) from by
            simp [serValue, serStr]]
        rw [parseVal]
        simp only [skipWs_cons_of '"' _ (by decide)]
        simp only [parseStrChars_escList, Option.map_some']
        rfl
      | arr l =>
        cases l with
        | nil => rfl
        | cons j es =>
          obtain ⟨c, t, heq, hc⟩ := serValue_head j
          obtain ⟨hws, hrb, _⟩ := serValue_head_facts c hc
          rw [show serValue (.arr (j :: es)) ++ rest =
            '[' :: (serValue j ++ (serElemsTail es ++ ']' :: rest)) from by
              simp [serValue, serElemsA]]
          rw [parseVal]
          simp only [skipWs_cons_of '[' _ (by decide)]
          rw [heq, List.cons_append, skipWs_cons_of c _ hws]
          rw [jfuel] at hj
          have he := ihe j es rest (by omega)
          rw [heq, List.cons_append] at he
          simp [hrb, he]
      | obj f =>
        cases f with
        | nil => rfl
        | cons kv fs =>
          obtain ⟨k, v⟩ := kv
          rw [show serValue (.obj ((k, v) :: fs)) ++ rest =
            '{' :: ('"' :: (escList k.data ++ '"' :: ':' ::
              (serValue v ++ (serFieldsTail fs ++ '}' :: rest)))) from by
              simp [serValue, serFieldsA, serStr]]
          rw [parseVal]
          simp only [skipWs_cons_of '{' _ (by decide)]
          simp only [skipWs_cons_of '"' _ (by decide)]
          rw [jfuel] at hj
          rw [ihf k v fs rest (by omega)]
          rfl
    · intro j es rest h
      rw [lfuel] at h
      rw [parseElems]
      have hb : ∀ c t, serElemsTail es ++ ']' :: rest = c :: t →
          isDigitC c = false := by
        cases es with
        | nil =>
          intro c t hh
          simp only [serElemsTail, List.nil_append, List.cons.injEq] at hh
          rw [← hh.1]
          rfl
        | cons j2 es2 =>
          intro c t hh
          simp only [serElemsTail, List.cons_append, List.cons.injEq] at hh
          rw [← hh.1]
          rfl
      have hv := ihv j (serElemsTail es ++ ']' :: rest) (by omega) hb
      simp only [hv]
      cases es with
      | nil =>
        simp only [serElemsTail, List.nil_append]
        simp only [skipWs_cons_of ']' _ (by decide)]
        rfl
      | cons j2 es2 =>
        simp only [serElemsTail, List.cons_append]
        simp only [skipWs_cons_of ',' _ (by decide)]
        rw [show serValue j2 ++ serElemsTail es2 ++ ']' :: rest =
          serValue j2 ++ (serElemsTail es2 ++ ']' :: rest) from by
            simp [List.append_assoc]]
        rw [ihe j2 es2 rest (by omega)]
        rfl
    · intro k v fs rest h
      simp only [ffuel] at h
      rw [parseFields]
      simp only [skipWs_cons_of '"' _ (by decide)]
      simp only [parseStrChars_escList]
      simp only [skipWs_cons_of ':' _ (by decide)]
      have hb : ∀ c t, serFieldsTail fs ++ '}' :: rest = c :: t →
          isDigitC c = false := by
        cases fs with
        | nil =>
          intro c t hh
          simp only [serFieldsTail, List.nil_append, List.cons.injEq] at hh
          rw [← hh.1]
          rfl
        | cons kv2 fs2 =>
          obtain ⟨k2, v2⟩ := kv2
          intro c t hh
          simp only [serFieldsTail, List.cons_append, List.cons.injEq] at hh
          rw [← hh.1]
          rfl
      have hv := ihv v (serFieldsTail fs ++ '}' :: rest) (by omega) hb
      simp only [hv]
      cases fs with
      | nil =>
        simp only [serFieldsTail, List.nil_append]
        simp only [skipWs_cons_of '}' _ (by decide)]
        rfl
      | cons kv2 fs2 =>
        obtain ⟨k2, v2⟩ := kv2
        simp only [serFieldsTail, List.cons_append]
        simp only [skipWs_cons_of ',' _ (by decide)]
        rw [show serStr k2 ++ ':' :: serValue v2 ++ serFieldsTail fs2 ++
            '}' :: rest =
          '"' :: (escList k2.data ++ '"' :: ':' ::
            (serValue v2 ++ (serFieldsTail fs2 ++ '}' :: rest))) from by
            simp [serStr, List.append_assoc]]
        rw [ihf k2 v2 fs2 rest (by omega)]
        rfl

mutual

/-- The fuel needed for a value is at most its serialized length. -/
theorem jfuel_le : ∀ j : Json, jfuel j ≤ (serValue j).length
  | .null => by simp [jfuel, serValue]
  | .bool b => by cases b <;> simp [jfuel, serValue]
  | .num i => by
    obtain ⟨c, t, heq, -⟩ := serInt_head i
    simp [jfuel, serValue, heq]
  | .str s => by simp [jfuel, serValue, serStr]
  | .arr l => by
    cases l with
    | nil => simp [jfuel, lfuel, serValue]
    | cons j es =>
      have h1 := jfuel_le j
      have h2 := ltail_le es
      simp only [jfuel, lfuel, serValue, serElemsA, List.length_cons,
        List.length_append]
      omega
  | .obj f => by
    cases f with
    | nil => simp [jfuel, ffuel, serValue]
    | cons kv fs =>
      obtain ⟨k, v⟩ := kv
      have h1 := jfuel_le v
      have h2 := ftail_le fs
      simp only [jfuel, ffuel, serValue, serFieldsA, List.length_cons,
        List.length_append]
      omega

/-- The fuel needed for remaining elements is at most their serialized
length. -/
theorem ltail_le : ∀ es : List Json, lfuel es ≤ (serElemsTail es).length
  | [] => by simp [lfuel, serElemsTail]
  | j :: es => by
    have h1 := jfuel_le j
    have h2 := ltail_le es
    simp only [lfuel, serElemsTail, List.length_cons, List.length_append]
    omega

/-- The fuel needed for remaining fields is at most their serialized
length. -/
theorem ftail_le : ∀ fs : List (String × Json),
    ffuel fs ≤ (serFieldsTail fs).length
  | [] => by simp [ffuel, serFieldsTail]
  | (k, v) :: fs => by
    have h1 := jfuel_le v
    have h2 := ftail_le fs
    simp only [ffuel, serFieldsTail, serStr, List.length_cons,
      List.length_append]
    omega

end

/-- The serialization of any value parses back to that value. -/
theorem jparseChars_serValue (j : Json) :
    jparseChars (serValue j) = some j := by
  have h := (parse_ser ((serValue j).length + 1)).1 j []
    (by have := jfuel_le j; omega)
    (by intro c t hh; exact absurd hh (by simp))
  rw [List.append_nil] at h
  unfold jparseChars
  rw [h]
  rfl

/-- A non-backtick head passes through `stripFenceAlt` unchanged. -/
theorem stripFenceAlt_cons_ne (c : Char) (l : List Char) (hc : c ≠ btick) :
    stripFenceAlt (c :: l) = c :: stripFenceAlt l := by
  match l with
  | [] => rfl
  | [b] => rfl
  | b :: d :: t =>
    match t with
    | [] => simp [stripFenceAlt, hc]
    | [e] => simp [stripFenceAlt, hc]
    | [e, f] => simp [stripFenceAlt, hc]
    | [e, f, g] => simp [stripFenceAlt, hc]
    | e :: f :: g :: t2 =>
      match t2 with
      | [] => simp [stripFenceAlt, hc]
      | h :: t3 => simp [stripFenceAlt, hc]

/-- `stripFenceAlt` passes over a backtick-free prefix. -/
theorem stripFenceAlt_append (l m : List Char) (hl : btick ∉ l) :
    stripFenceAlt (l ++ m) = l ++ stripFenceAlt m := by
  induction l with
  | nil => rfl
  | cons c t ih =>
    rw [List.cons_append,
      stripFenceAlt_cons_ne c _ (fun h => hl (h ▸ List.mem_cons_self c t)),
      ih (fun h => hl (List.mem_cons_of_mem c h)), List.cons_append]

/-- A non-backtick head passes through `stripJsonCI` unchanged. -/
theorem stripJsonCI_cons_ne (c : Char) (l : List Char) (hc : c ≠ btick) :
    stripJsonCI (c :: l) = c :: stripJsonCI l := by
  match l with
  | [] => rfl
  | [b] => rfl
  | [b, d] => rfl
  | [b, d, e] => rfl
  | [b, d, e, f] => rfl
  | [b, d, e, f, g] => rfl
  | b :: d :: e :: f :: g :: h :: t => simp [stripJsonCI, hc]

/-- `stripJsonCI` passes over a backtick-free prefix. -/
theorem stripJsonCI_append (l m : List Char) (hl : btick ∉ l) :
    stripJsonCI (l ++ m) = l ++ stripJsonCI m := by
  induction l with
  | nil => rfl
  | cons c t ih =>
    rw [List.cons_append,
      stripJsonCI_cons_ne c _ (fun h => hl (h ▸ List.mem_cons_self c t)),
      ih (fun h => hl (List.mem_cons_of_mem c h)), List.cons_append]

/-- `stripTriple` passes over a backtick-free prefix. -/
theorem stripTriple_append (l m : List Char) (hl : btick ∉ l) :
    stripTriple (l ++ m) = l ++ stripTriple m := by
  induction l with
  | nil => rfl
  | cons c t ih =>
    rw [List.cons_append,
      stripTriple_cons_ne c _ (fun h => hl (h ▸ List.mem_cons_self c t)),
      ih (fun h => hl (List.mem_cons_of_mem c h)), List.cons_append]

/-- `stripHere` leaves a string alone unless it starts with `H` or `h`. -/
theorem stripHere_ne (c : Char) (l : List Char) (h1 : c ≠ 'H')
    (h2 : c ≠ 'h') : stripHere (c :: l) = c :: l := by
  match l with
  | [] => rfl
  | [a] => rfl
  | [a, b] => rfl
  | a :: b :: d :: t =>
    unfold stripHere
    simp [h1, h2]

/-- Trimming the newline wrapper around a serialized object gives it
back. -/
theorem trimChars_wrap (mid : List Char) :
    trimChars ('\n' :: (('{' :: mid ++ ['}']) ++ ['\n'])) =
      '{' :: mid ++ ['}'] := by
  unfold trimChars
  rw [List.dropWhile_cons, if_pos (show isTrimWs '\n' = true by rfl)]
  rw [show ('{' :: mid ++ ['}']) ++ ['\n'] = '{' :: (mid ++ ['}', '\n'])
    from by simp]
  rw [List.dropWhile_cons, if_neg (show ¬isTrimWs '{' = true by decide)]
  rw [show ('{' :: (mid ++ ['}', '\n'])).reverse =
    '\n' :: ('}' :: (mid.reverse ++ ['{'])) from by simp]
  rw [List.dropWhile_cons, if_pos (show isTrimWs '\n' = true by rfl)]
  rw [List.dropWhile_cons, if_neg (show ¬isTrimWs '}' = true by decide)]
  simp

/-- `stripFenceAlt` removes the tagged opening fence. -/
theorem stripFenceAlt_fence (X : List Char) :
    stripFenceAlt (btick :: btick :: btick :: 'j' :: 's' :: 'o' :: 'n' ::
      X) = stripFenceAlt X := by
  simp [stripFenceAlt]

/-- `stripJsonCI` removes the tagged opening fence. -/
theorem stripJsonCI_fence (X : List Char) :
    stripJsonCI (btick :: btick :: btick :: 'j' :: 's' :: 'o' :: 'n' ::
      X) = stripJsonCI X := by
  simp [stripJsonCI]

/-- The `part_000` cleanup recovers the serialized object from its fence
wrapper, provided the serialization has no backtick. -/
theorem cleanA_wrap (f : List (String × Json))
    (hb : btick ∉ serValue (Json.obj f)) :
    cleanA (fenceWrap (serString (Json.obj f))) = serValue (Json.obj f) := by
  unfold cleanA fenceWrap serString
  rw [String.data_append, String.data_append]
  rw [show ("```json\n").data = btick :: btick :: btick :: 'j' :: 's' ::
      'o' :: 'n' :: ['\n'] from rfl,
    show ("\n```").data = '\n' :: [btick, btick, btick] from rfl,
    show (⟨serValue (Json.obj f)⟩ : String).data = serValue (Json.obj f)
      from rfl]
  simp only [List.cons_append, List.nil_append, List.append_assoc]
  rw [stripFenceAlt_fence, stripFenceAlt_cons_ne '\n' _ (by decide),
    stripFenceAlt_append _ _ hb,
    show stripFenceAlt ('\n' :: [btick, btick, btick]) = ['\n'] from rfl]
  rw [show serValue (Json.obj f) = '{' :: serFieldsA f ++ ['}'] from rfl]
  exact trimChars_wrap (serFieldsA f)

/-- The `server.js` cleanup recovers the serialized object from its fence
wrapper, provided the serialization has no backtick. -/
theorem cleanB_wrap (f : List (String × Json))
    (hb : btick ∉ serValue (Json.obj f)) :
    cleanB (fenceWrap (serString (Json.obj f))) = serValue (Json.obj f) := by
  unfold cleanB fenceWrap serString
  rw [String.data_append, String.data_append]
  rw [show ("```json\n").data = btick :: btick :: btick :: 'j' :: 's' ::
      'o' :: 'n' :: ['\n'] from rfl,
    show ("\n```").data = '\n' :: [btick, btick, btick] from rfl,
    show (⟨serValue (Json.obj f)⟩ : String).data = serValue (Json.obj f)
      from rfl]
  simp only [List.cons_append, List.nil_append, List.append_assoc]
  rw [stripJsonCI_fence, stripJsonCI_cons_ne '\n' _ (by decide),
    stripJsonCI_append _ _ hb,
    show stripJsonCI ('\n' :: [btick, btick, btick]) =
      '\n' :: [btick, btick, btick] from rfl]
  rw [stripTriple_cons_ne '\n' _ (by decide), stripTriple_append _ _ hb,
    show stripTriple ('\n' :: [btick, btick, btick]) = ['\n'] from rfl]
  rw [stripHere_ne '\n' _ (by decide) (by decide)]
  rw [show serValue (Json.obj f) = '{' :: serFieldsA f ++ ['}'] from rfl]
  exact trimChars_wrap (serFieldsA f)

/-- C3 counterexample.  The claim quantifies over every JSON object; an
object whose string value contains a fence token is mangled by the fence
strip — `{"a":"```"}` round-trips to `{"a":""}` — so the round trip does
not hold for it. -/
theorem C3_counterexample :
    sanitizeB (fenceWrap (serString (Json.obj [("a", Json.str "```")]))) =
      SanB.ok (Json.obj [("a", Json.str "")]) ∧
    sanitizeA (fenceWrap (serString (Json.obj [("a", Json.str "```")]))) =
      SanA.ok (Json.obj [("a", Json.str "")]) ∧
    Json.obj [("a", Json.str "")] ≠ Json.obj [("a", Json.str "```")] := by
  refine ⟨rfl, rfl, ?_⟩
  intro h
  injection h with h1
  injection h1 with h2 h3
  injection h2 with h4 h5
  injection h5 with h6
  exact absurd h6 (by decide)

/-- C3 amended.  For every JSON object (in the model: integer numerals,
ordered fields) whose serialization contains no backtick character,
wrapping the serialization in `json` code fences and sanitizing yields
success with an object deeply equal to the original, in the `part_000`
and the `server.js` revision alike; a backtick inside a string value
breaks this, as the fence strips run before parsing. -/
theorem C3_roundtrip (fields : List (String × Json))
    (hb : btick ∉ serValue (Json.obj fields)) :
    sanitizeA (fenceWrap (serString (Json.obj fields))) =
      SanA.ok (Json.obj fields) ∧
    sanitizeB (fenceWrap (serString (Json.obj fields))) =
      SanB.ok (Json.obj fields) := by
  have hp := jparseChars_serValue (Json.obj fields)
  have hne : serValue (Json.obj fields) ≠ [] := by
    rw [show serValue (Json.obj fields) = '{' :: serFieldsA fields ++ ['}']
      from rfl]
    simp
  constructor
  · unfold sanitizeA
    simp only [cleanA_wrap fields hb]
    rw [if_neg hne]
    simp only [hp]
  · unfold sanitizeB
    simp only [cleanB_wrap fields hb]
    simp only [hp]

/-- C3 witness: the round trip at the concrete object `{"a":1}`. -/
theorem C3_roundtrip_witness :
    sanitizeA (fenceWrap (serString (Json.obj [("a", Json.num 1)]))) =
      SanA.ok (Json.obj [("a", Json.num 1)]) ∧
    sanitizeB (fenceWrap (serString (Json.obj [("a", Json.num 1)]))) =
      SanB.ok (Json.obj [("a", Json.num 1)]) := by
  exact C3_roundtrip [("a", Json.num 1)] (by decide)
